import Mathlib

/-!
Shallow embedding of the Soroban access-NFT contract
(src/src/lib.rs of SmartContract-moradiacompartilhada) and proofs of its
specification claims.

Storage is modelled as a record of association lists, one per storage-key
family of the contract enum DataKey (Admin, NftOwner, OwnerNft,
NftMetadata).  Panics in the Rust source (assert, unwrap, explicit panic)
are modelled as error results that carry the state at the panic point, so
that a theorem stating that a failing call leaves the state unchanged is a
real statement about the order of checks and writes in the source.
External collaborators (hash, serialization, clock) are modelled as
parameters of the calls, following section 6 of the spec.
-/

/-- Identity handles (Soroban Address), abstracted to naturals. -/
abbrev Address := Nat

/-- Short interned strings (Soroban Symbol type). -/
abbrev SymStr := String

/-- 256-bit token identifiers (Soroban BytesN 32), abstracted to naturals. -/
abbrev TokenId := Nat

/-- NftMetadata from the source: name, description, image_url, is_active. -/
structure NftMetadata where
  name : SymStr
  description : SymStr
  image_url : SymStr
  is_active : Bool
deriving DecidableEq, Repr

/-- Association-list lookup, first binding wins (key-value store get). -/
def getEntry {κ β : Type} [DecidableEq κ] (k : κ) : List (κ × β) → Option β
  | [] => none
  | (k0, v) :: rest => if k0 = k then some v else getEntry k rest

/-- Association-list update-or-append (key-value store set). -/
def setEntry {κ β : Type} [DecidableEq κ] (k : κ) (v : β) : List (κ × β) → List (κ × β)
  | [] => [(k, v)]
  | (k0, v0) :: rest => if k0 = k then (k, v) :: rest else (k0, v0) :: setEntry k v rest

/-- Contract storage: one table per DataKey variant of the source. -/
structure State where
  admin : Option Address
  nftOwner : List (TokenId × Address)
  ownerNft : List (Address × TokenId)
  nftMetadata : List (TokenId × NftMetadata)
deriving DecidableEq, Repr

/-- The storage of a freshly deployed contract: every key absent. -/
def emptyState : State := ⟨none, [], [], []⟩

/-- Failure conditions.  The first four are the error taxonomy of the spec;
missingAdmin and missingMetadata model the panics of the unchecked storage
reads (get_unchecked + unwrap) in the source. -/
inductive Err where
  | alreadyInitialized
  | unauthorized
  | alreadyHasCredential
  | noCredential
  | missingAdmin
  | missingMetadata
deriving DecidableEq, Repr

/-- Per-call environment: the hash, serialization and clock collaborators. -/
structure CallEnv where
  hash : List Nat → TokenId
  serAddr : Address → List Nat
  serSym : SymStr → List Nat
  timestamp : Nat

/-- Big-endian 8-byte encoding of a u64 timestamp (to_be_bytes). -/
def beBytes64 (t : Nat) : List Nat :=
  [t / 2 ^ 56 % 256, t / 2 ^ 48 % 256, t / 2 ^ 40 % 256, t / 2 ^ 32 % 256,
   t / 2 ^ 24 % 256, t / 2 ^ 16 % 256, t / 2 ^ 8 % 256, t % 256]

/-- The byte string hashed by mint_nft: serialized recipient, then
serialized name, then the big-endian timestamp. -/
def mintPreimage (env : CallEnv) (toAddr : Address) (name : SymStr) : List Nat :=
  env.serAddr toAddr ++ env.serSym name ++ beBytes64 env.timestamp

/-- The token id derived by mint_nft (line 51 of the source). -/
def mintId (env : CallEnv) (toAddr : Address) (name : SymStr) : TokenId :=
  env.hash (mintPreimage env toAddr name)

/-- initialize: set the admin, failing if one is already stored. -/
def initializeContract (s : State) (admin : Address) : Except Err Unit × State :=
  if s.admin.isSome then (.error .alreadyInitialized, s)
  else (.ok (), { s with admin := some admin })

/-- mint_nft: admin-only issuance of a credential.  auth models the set of
identities that the ambient invocation can authenticate as. -/
def mint_nft (env : CallEnv) (auth : Address → Bool) (s : State) (toAddr : Address)
    (name description image_url : SymStr) : Except Err TokenId × State :=
  match s.admin with
  | none => (.error .missingAdmin, s)
  | some admin =>
    if auth admin then
      if (getEntry toAddr s.ownerNft).isSome then (.error .alreadyHasCredential, s)
      else
        let id := mintId env toAddr name
        let s1 := { s with nftOwner := setEntry id toAddr s.nftOwner }
        let s2 := { s1 with ownerNft := setEntry toAddr id s1.ownerNft }
        let s3 := { s2 with nftMetadata := setEntry id ⟨name, description, image_url, true⟩ s2.nftMetadata }
        (.ok id, s3)
    else (.error .unauthorized, s)

/-- has_access: true iff the user has a bound, active credential.  The
unchecked metadata read of the source is the missingMetadata error case. -/
def has_access (s : State) (user : Address) : Except Err Bool :=
  match getEntry user s.ownerNft with
  | some id =>
    match getEntry id s.nftMetadata with
    | some md => .ok md.is_active
    | none => .error .missingMetadata
  | none => .ok false

/-- get_nft_metadata: checked reads only, absence gives none. -/
def get_nft_metadata (s : State) (user : Address) : Option NftMetadata :=
  match getEntry user s.ownerNft with
  | some id => getEntry id s.nftMetadata
  | none => none

/-- revoke_nft: admin-only, clears is_active on the bound credential. -/
def revoke_nft (env : CallEnv) (auth : Address → Bool) (s : State)
    (user : Address) : Except Err Unit × State :=
  match s.admin with
  | none => (.error .missingAdmin, s)
  | some admin =>
    if auth admin then
      match getEntry user s.ownerNft with
      | some id =>
        match getEntry id s.nftMetadata with
        | some md =>
          (.ok (), { s with nftMetadata := setEntry id { md with is_active := false } s.nftMetadata })
        | none => (.error .missingMetadata, s)
      | none => (.error .noCredential, s)
    else (.error .unauthorized, s)

/-- reactivate_nft: admin-only, sets is_active on the bound credential. -/
def reactivate_nft (env : CallEnv) (auth : Address → Bool) (s : State)
    (user : Address) : Except Err Unit × State :=
  match s.admin with
  | none => (.error .missingAdmin, s)
  | some admin =>
    if auth admin then
      match getEntry user s.ownerNft with
      | some id =>
        match getEntry id s.nftMetadata with
        | some md =>
          (.ok (), { s with nftMetadata := setEntry id { md with is_active := true } s.nftMetadata })
        | none => (.error .missingMetadata, s)
      | none => (.error .noCredential, s)
    else (.error .unauthorized, s)

/-! ### Association-list lemmas -/

theorem getEntry_setEntry_self {κ β : Type} [DecidableEq κ] (k : κ) (v : β)
    (l : List (κ × β)) : getEntry k (setEntry k v l) = some v := by
  induction l with
  | nil => simp [getEntry, setEntry]
  | cons p rest ih =>
    obtain ⟨k0, v0⟩ := p
    by_cases h : k0 = k
    · simp [getEntry, setEntry, h]
    · simp [getEntry, setEntry, h, ih]

theorem getEntry_setEntry_ne {κ β : Type} [DecidableEq κ] {k k1 : κ} (v : β)
    (l : List (κ × β)) (h : k ≠ k1) :
    getEntry k1 (setEntry k v l) = getEntry k1 l := by
  induction l with
  | nil => simp [getEntry, setEntry, h]
  | cons p rest ih =>
    obtain ⟨k0, v0⟩ := p
    by_cases h0 : k0 = k
    · subst h0
      simp [getEntry, setEntry, h]
    · simp [getEntry, setEntry, h0, ih]

theorem setEntry_of_getEntry_eq {κ β : Type} [DecidableEq κ] {k : κ} {v : β}
    {l : List (κ × β)} (h : getEntry k l = some v) : setEntry k v l = l := by
  induction l with
  | nil => simp [getEntry] at h
  | cons p rest ih =>
    obtain ⟨k0, v0⟩ := p
    by_cases h0 : k0 = k
    · subst h0
      simp [getEntry] at h
      simp [setEntry, h]
    · simp [getEntry, h0] at h
      simp [setEntry, h0, ih h]

/-! ### Concrete fixtures shared by the witness theorems -/

/-- A computably injective stand-in for the cryptographic hash. -/
def encodeHash : List Nat → TokenId := fun l => Encodable.encode l

/-- A one-byte injective serialization of identities. -/
def serAddrOne : Address → List Nat := fun a => [a]

/-- A serialization of symbols by character codes. -/
def serSymCodes : SymStr → List Nat := fun s => s.toList.map Char.toNat

/-- A concrete call environment at a given timestamp. -/
def envAt (ts : Nat) : CallEnv := ⟨encodeHash, serAddrOne, serSymCodes, ts⟩

/-- An invocation that can authenticate as nobody. -/
def authNone : Address → Bool := fun _ => false

/-- An invocation that can authenticate as anybody (mock_all_auths). -/
def authAll : Address → Bool := fun _ => true

/-- A state with admin 1 and no credentials. -/
def sAdmin : State := ⟨some 1, [], [], []⟩

/-- A state with admin 1 and one active credential: token 10 bound to
identity 5. -/
def sBound : State :=
  ⟨some 1, [(10, 5)], [(5, 10)], [(10, ⟨"Name", "Desc", "Img", true⟩)]⟩

/-! ### Claim theorems -/

/-- C1: with an Admin stored, mint_nft, revoke_nft and reactivate_nft each
fail with unauthorized when the caller cannot authenticate as the stored
Admin, and the failing call leaves every storage entry exactly as it was. -/
theorem unauthorizedRejection (env : CallEnv) (auth : Address → Bool) (s : State)
    (a toAddr u1 u2 : Address) (name description image_url : SymStr)
    (hA : s.admin = some a) (hauth : auth a = false) :
    mint_nft env auth s toAddr name description image_url = (.error .unauthorized, s) ∧
    revoke_nft env auth s u1 = (.error .unauthorized, s) ∧
    reactivate_nft env auth s u2 = (.error .unauthorized, s) := by
  simp [mint_nft, revoke_nft, reactivate_nft, hA, hauth]

theorem unauthorizedRejection_witness :
    mint_nft (envAt 1) authNone sBound 7 "N" "D" "I" = (.error .unauthorized, sBound) ∧
    revoke_nft (envAt 1) authNone sBound 5 = (.error .unauthorized, sBound) ∧
    reactivate_nft (envAt 1) authNone sBound 5 = (.error .unauthorized, sBound) :=
  unauthorizedRejection (envAt 1) authNone sBound 1 7 5 5 "N" "D" "I" rfl rfl

/-- C3: whenever an Admin record already exists, initializeContract fails
with alreadyInitialized and changes nothing; in particular after a first
successful call a second call fails and the state after the second call
equals the state after the first. -/
theorem initializeTwice (s0 s : State) (a b : Address)
    (h0 : s0.admin = none) (h : s.admin.isSome) :
    initializeContract s b = (.error .alreadyInitialized, s) ∧
    (initializeContract s0 a).fst = .ok () ∧
    initializeContract (initializeContract s0 a).snd b =
      (.error .alreadyInitialized, (initializeContract s0 a).snd) := by
  refine ⟨?_, ?_, ?_⟩ <;> simp [initializeContract, h0, h]

theorem initializeTwice_witness :
    initializeContract sAdmin 2 = (.error .alreadyInitialized, sAdmin) ∧
    (initializeContract emptyState 1).fst = .ok () ∧
    initializeContract (initializeContract emptyState 1).snd 2 =
      (.error .alreadyInitialized, (initializeContract emptyState 1).snd) :=
  initializeTwice emptyState sAdmin 1 2 rfl rfl

/-- C9: with Admin authorization, revoke_nft and reactivate_nft on an
identity with no bound credential fail with noCredential and leave the
state unchanged. -/
theorem noCredentialRejection (env : CallEnv) (auth : Address → Bool) (s : State)
    (a u : Address) (hA : s.admin = some a) (hauth : auth a = true)
    (hnb : getEntry u s.ownerNft = none) :
    revoke_nft env auth s u = (.error .noCredential, s) ∧
    reactivate_nft env auth s u = (.error .noCredential, s) := by
  simp [revoke_nft, reactivate_nft, hA, hauth, hnb]

theorem noCredentialRejection_witness :
    revoke_nft (envAt 1) authAll sBound 6 = (.error .noCredential, sBound) ∧
    reactivate_nft (envAt 1) authAll sBound 6 = (.error .noCredential, sBound) :=
  noCredentialRejection (envAt 1) authAll sBound 1 6 rfl rfl rfl

/-- C10: with no Admin record stored, mint_nft, revoke_nft and
reactivate_nft fail with missingAdmin for every caller, before any
authorization check or write; and whenever an Admin record is stored, the
missingAdmin failure is unreachable for all three operations. -/
theorem uninitializedCallsFail (env : CallEnv) (auth : Address → Bool) (s : State)
    (toAddr u1 u2 : Address) (name description image_url : SymStr)
    (h : s.admin = none) :
    (mint_nft env auth s toAddr name description image_url = (.error .missingAdmin, s) ∧
     revoke_nft env auth s u1 = (.error .missingAdmin, s) ∧
     reactivate_nft env auth s u2 = (.error .missingAdmin, s)) ∧
    (∀ (s2 : State) (a : Address), s2.admin = some a →
      (mint_nft env auth s2 toAddr name description image_url).fst ≠ .error .missingAdmin ∧
      (revoke_nft env auth s2 u1).fst ≠ .error .missingAdmin ∧
      (reactivate_nft env auth s2 u2).fst ≠ .error .missingAdmin) := by
  constructor
  · simp [mint_nft, revoke_nft, reactivate_nft, h]
  · intro s2 a h2
    refine ⟨?_, ?_, ?_⟩
    · simp only [mint_nft, h2]
      cases hb : auth a
      · simp [hb]
      · simp only [hb, if_true]
        split <;> simp
    · simp only [revoke_nft, h2]
      cases hb : auth a
      · simp [hb]
      · simp only [hb, if_true]
        cases hx : getEntry u1 s2.ownerNft with
        | none => simp [hx]
        | some id =>
          simp only [hx]
          cases hy : getEntry id s2.nftMetadata <;> simp [hy]
    · simp only [reactivate_nft, h2]
      cases hb : auth a
      · simp [hb]
      · simp only [hb, if_true]
        cases hx : getEntry u2 s2.ownerNft with
        | none => simp [hx]
        | some id =>
          simp only [hx]
          cases hy : getEntry id s2.nftMetadata <;> simp [hy]

theorem uninitializedCallsFail_witness :
    (mint_nft (envAt 1) authAll emptyState 7 "N" "D" "I" = (.error .missingAdmin, emptyState) ∧
     revoke_nft (envAt 1) authAll emptyState 5 = (.error .missingAdmin, emptyState) ∧
     reactivate_nft (envAt 1) authAll emptyState 5 = (.error .missingAdmin, emptyState)) ∧
    (∀ (s2 : State) (a : Address), s2.admin = some a →
      (mint_nft (envAt 1) authAll s2 7 "N" "D" "I").fst ≠ .error .missingAdmin ∧
      (revoke_nft (envAt 1) authAll s2 5).fst ≠ .error .missingAdmin ∧
      (reactivate_nft (envAt 1) authAll s2 5).fst ≠ .error .missingAdmin) :=
  uninitializedCallsFail (envAt 1) authAll emptyState 7 5 5 "N" "D" "I" rfl

/-- C2: an authorized mint_nft targeting an identity that already holds a
bound credential fails with alreadyHasCredential, and the failing call
leaves the whole state, in particular the original token metadata,
unchanged. -/
theorem singleCredentialPerIdentity (env : CallEnv) (auth : Address → Bool)
    (s : State) (a toAddr : Address) (id : TokenId)
    (name description image_url : SymStr)
    (hA : s.admin = some a) (hauth : auth a = true)
    (hbound : getEntry toAddr s.ownerNft = some id) :
    mint_nft env auth s toAddr name description image_url =
      (.error .alreadyHasCredential, s) := by
  simp [mint_nft, hA, hauth, hbound]

theorem singleCredentialPerIdentity_witness :
    mint_nft (envAt 2) authAll sBound 5 "Other" "D" "I" =
      (.error .alreadyHasCredential, sBound) :=
  singleCredentialPerIdentity (envAt 2) authAll sBound 1 5 10 "Other" "D" "I"
    rfl rfl rfl

/-- C7: an authorized revoke_nft or reactivate_nft on a bound credential
succeeds and changes only the is_active flag of that credential: the admin
record, both ownership tables, and the name, description and image_url of
every stored metadata record are unchanged, and metadata of other tokens
is untouched. -/
theorem revokeReactivateFrame (env : CallEnv) (auth : Address → Bool) (s : State)
    (a u : Address) (id : TokenId) (md : NftMetadata)
    (hA : s.admin = some a) (hauth : auth a = true)
    (hb : getEntry u s.ownerNft = some id)
    (hm : getEntry id s.nftMetadata = some md) :
    ((revoke_nft env auth s u).fst = .ok () ∧
     (revoke_nft env auth s u).snd.admin = s.admin ∧
     (revoke_nft env auth s u).snd.ownerNft = s.ownerNft ∧
     (revoke_nft env auth s u).snd.nftOwner = s.nftOwner ∧
     getEntry id (revoke_nft env auth s u).snd.nftMetadata =
       some ⟨md.name, md.description, md.image_url, false⟩ ∧
     (∀ id2, id2 ≠ id → getEntry id2 (revoke_nft env auth s u).snd.nftMetadata =
       getEntry id2 s.nftMetadata)) ∧
    ((reactivate_nft env auth s u).fst = .ok () ∧
     (reactivate_nft env auth s u).snd.admin = s.admin ∧
     (reactivate_nft env auth s u).snd.ownerNft = s.ownerNft ∧
     (reactivate_nft env auth s u).snd.nftOwner = s.nftOwner ∧
     getEntry id (reactivate_nft env auth s u).snd.nftMetadata =
       some ⟨md.name, md.description, md.image_url, true⟩ ∧
     (∀ id2, id2 ≠ id → getEntry id2 (reactivate_nft env auth s u).snd.nftMetadata =
       getEntry id2 s.nftMetadata)) := by
  constructor
  · refine ⟨?_, ?_, ?_, ?_, ?_, ?_⟩ <;>
      simp [revoke_nft, hA, hauth, hb, hm, getEntry_setEntry_self]
    intro id2 h2
    exact getEntry_setEntry_ne _ _ (fun hh => h2 hh.symm)
  · refine ⟨?_, ?_, ?_, ?_, ?_, ?_⟩ <;>
      simp [reactivate_nft, hA, hauth, hb, hm, getEntry_setEntry_self]
    intro id2 h2
    exact getEntry_setEntry_ne _ _ (fun hh => h2 hh.symm)

theorem revokeReactivateFrame_witness :
    ((revoke_nft (envAt 3) authAll sBound 5).fst = .ok () ∧
     (revoke_nft (envAt 3) authAll sBound 5).snd.admin = sBound.admin ∧
     (revoke_nft (envAt 3) authAll sBound 5).snd.ownerNft = sBound.ownerNft ∧
     (revoke_nft (envAt 3) authAll sBound 5).snd.nftOwner = sBound.nftOwner ∧
     getEntry 10 (revoke_nft (envAt 3) authAll sBound 5).snd.nftMetadata =
       some ⟨"Name", "Desc", "Img", false⟩ ∧
     (∀ id2, id2 ≠ 10 → getEntry id2 (revoke_nft (envAt 3) authAll sBound 5).snd.nftMetadata =
       getEntry id2 sBound.nftMetadata)) ∧
    ((reactivate_nft (envAt 3) authAll sBound 5).fst = .ok () ∧
     (reactivate_nft (envAt 3) authAll sBound 5).snd.admin = sBound.admin ∧
     (reactivate_nft (envAt 3) authAll sBound 5).snd.ownerNft = sBound.ownerNft ∧
     (reactivate_nft (envAt 3) authAll sBound 5).snd.nftOwner = sBound.nftOwner ∧
     getEntry 10 (reactivate_nft (envAt 3) authAll sBound 5).snd.nftMetadata =
       some ⟨"Name", "Desc", "Img", true⟩ ∧
     (∀ id2, id2 ≠ 10 → getEntry id2 (reactivate_nft (envAt 3) authAll sBound 5).snd.nftMetadata =
       getEntry id2 sBound.nftMetadata)) :=
  revokeReactivateFrame (envAt 3) authAll sBound 1 5 10 ⟨"Name", "Desc", "Img", true⟩
    rfl rfl rfl rfl

/-- C8: with Admin authorization and an existing binding, revoke_nft on an
already-inactive credential and reactivate_nft on an already-active
credential succeed and return the state unchanged, and a second revoke_nft
(resp. reactivate_nft) right after a first one succeeds and changes
nothing. -/
theorem revokeReactivateIdempotent (env : CallEnv) (auth : Address → Bool)
    (s : State) (a u : Address) (id : TokenId) (md : NftMetadata)
    (hA : s.admin = some a) (hauth : auth a = true)
    (hb : getEntry u s.ownerNft = some id)
    (hm : getEntry id s.nftMetadata = some md) :
    (md.is_active = false → revoke_nft env auth s u = (.ok (), s)) ∧
    (md.is_active = true → reactivate_nft env auth s u = (.ok (), s)) ∧
    revoke_nft env auth (revoke_nft env auth s u).snd u =
      (.ok (), (revoke_nft env auth s u).snd) ∧
    reactivate_nft env auth (reactivate_nft env auth s u).snd u =
      (.ok (), (reactivate_nft env auth s u).snd) := by
  have hrev : revoke_nft env auth s u =
      (.ok (), { s with nftMetadata := setEntry id { md with is_active := false } s.nftMetadata }) := by
    simp [revoke_nft, hA, hauth, hb, hm]
  have hrea : reactivate_nft env auth s u =
      (.ok (), { s with nftMetadata := setEntry id { md with is_active := true } s.nftMetadata }) := by
    simp [reactivate_nft, hA, hauth, hb, hm]
  refine ⟨?_, ?_, ?_, ?_⟩
  · intro hact
    rw [hrev]
    have hmd : { md with is_active := false } = md := by
      cases md
      simp_all
    rw [hmd, setEntry_of_getEntry_eq hm]
  · intro hact
    rw [hrea]
    have hmd : { md with is_active := true } = md := by
      cases md
      simp_all
    rw [hmd, setEntry_of_getEntry_eq hm]
  · rw [hrev]
    have hm1 : getEntry id (setEntry id { md with is_active := false } s.nftMetadata) =
        some { md with is_active := false } := getEntry_setEntry_self _ _ _
    simp only [revoke_nft, hA, hauth, hb, hm1, if_true]
    rw [setEntry_of_getEntry_eq hm1]
  · rw [hrea]
    have hm1 : getEntry id (setEntry id { md with is_active := true } s.nftMetadata) =
        some { md with is_active := true } := getEntry_setEntry_self _ _ _
    simp only [reactivate_nft, hA, hauth, hb, hm1, if_true]
    rw [setEntry_of_getEntry_eq hm1]

theorem revokeReactivateIdempotent_witness :
    (((⟨"Name", "Desc", "Img", true⟩ : NftMetadata).is_active = false →
      revoke_nft (envAt 4) authAll sBound 5 = (.ok (), sBound)) ∧
     ((⟨"Name", "Desc", "Img", true⟩ : NftMetadata).is_active = true →
      reactivate_nft (envAt 4) authAll sBound 5 = (.ok (), sBound)) ∧
     revoke_nft (envAt 4) authAll (revoke_nft (envAt 4) authAll sBound 5).snd 5 =
       (.ok (), (revoke_nft (envAt 4) authAll sBound 5).snd) ∧
     reactivate_nft (envAt 4) authAll (reactivate_nft (envAt 4) authAll sBound 5).snd 5 =
       (.ok (), (reactivate_nft (envAt 4) authAll sBound 5).snd)) :=
  revokeReactivateIdempotent (envAt 4) authAll sBound 1 5 10
    ⟨"Name", "Desc", "Img", true⟩ rfl rfl rfl rfl

/-- Well-formed storage: every identity binding points at a stored
metadata record (true of every state the contract itself produces). -/
def wfState (s : State) : Prop :=
  ∀ p ∈ s.ownerNft, (getEntry p.2 s.nftMetadata).isSome = true

instance (s : State) : Decidable (wfState s) :=
  inferInstanceAs (Decidable (∀ p ∈ s.ownerNft, (getEntry p.2 s.nftMetadata).isSome = true))

theorem getEntry_mem {κ β : Type} [DecidableEq κ] {k : κ} {v : β} :
    ∀ {l : List (κ × β)}, getEntry k l = some v → (k, v) ∈ l := by
  intro l
  induction l with
  | nil => intro h; simp [getEntry] at h
  | cons p rest ih =>
    intro h
    obtain ⟨k0, v0⟩ := p
    by_cases h0 : k0 = k
    · subst h0
      simp [getEntry] at h
      simp [h]
    · simp [getEntry, h0] at h
      simp [ih h]

/-- C4: on well-formed storage, has_access is an error-free read that
returns true exactly when the identity has a bound token whose metadata
is_active flag is true, and for an identity with no binding has_access
returns false and get_nft_metadata returns none. -/
theorem readSemantics (s : State) (u : Address) (hwf : wfState s) :
    (has_access s u = .ok true ↔
      ∃ id md, getEntry u s.ownerNft = some id ∧
        getEntry id s.nftMetadata = some md ∧ md.is_active = true) ∧
    (getEntry u s.ownerNft = none →
      has_access s u = .ok false ∧ get_nft_metadata s u = none) ∧
    (∃ b, has_access s u = .ok b) := by
  cases hx : getEntry u s.ownerNft with
  | none =>
    refine ⟨?_, fun _ => ⟨?_, ?_⟩, ⟨false, ?_⟩⟩ <;> simp [has_access, get_nft_metadata, hx]
  | some id =>
    have hsome := hwf (u, id) (getEntry_mem hx)
    obtain ⟨md, hmd⟩ := Option.isSome_iff_exists.mp hsome
    have hm : getEntry id s.nftMetadata = some md := hmd
    have hacc : has_access s u = .ok md.is_active := by simp [has_access, hx, hm]
    refine ⟨?_, fun hc => ?_, ⟨md.is_active, hacc⟩⟩
    · constructor
      · intro h
        rw [hacc] at h
        refine ⟨id, md, rfl, hm, ?_⟩
        simpa using h
      · rintro ⟨id2, md2, hx2, hm2, hact⟩
        injection hx2 with h3
        subst h3
        rw [hm] at hm2
        injection hm2 with h4
        subst h4
        rw [hacc, hact]
    · simp at hc

theorem readSemantics_witness :
    ((has_access sBound 6 = .ok true ↔
      ∃ id md, getEntry 6 sBound.ownerNft = some id ∧
        getEntry id sBound.nftMetadata = some md ∧ md.is_active = true) ∧
     (getEntry 6 sBound.ownerNft = none →
      has_access sBound 6 = .ok false ∧ get_nft_metadata sBound 6 = none) ∧
     (∃ b, has_access sBound 6 = .ok b)) :=
  readSemantics sBound 6 (by decide)

/-- The concrete hash stand-in is injective. -/
theorem encodeHash_injective : Function.Injective encodeHash :=
  Encodable.encode_injective

/-- The one-byte identity serialization is injective. -/
theorem serAddrOne_injective : Function.Injective serAddrOne := by
  intro a b h
  simpa [serAddrOne] using h

/-- C5: an authorized mint_nft to an unbound identity returns exactly the
hash of the serialized recipient, the serialized name and the big-endian
timestamp; for an injective hash over a fixed-width injective identity
serialization, two issuances to distinct identities with the same name at
the same timestamp return distinct token ids. -/
theorem issuanceDeterminism (env : CallEnv) (auth : Address → Bool) (s : State)
    (a toA toB : Address) (name dA iA dB iB : SymStr)
    (hA : s.admin = some a) (hauth : auth a = true)
    (hfreeA : getEntry toA s.ownerNft = none)
    (hfreeB : getEntry toB s.ownerNft = none)
    (hne : toA ≠ toB)
    (hinj : Function.Injective env.hash)
    (hserinj : Function.Injective env.serAddr) :
    (mint_nft env auth s toA name dA iA).fst =
      .ok (env.hash (env.serAddr toA ++ env.serSym name ++ beBytes64 env.timestamp)) ∧
    (mint_nft env auth s toB name dB iB).fst =
      .ok (env.hash (env.serAddr toB ++ env.serSym name ++ beBytes64 env.timestamp)) ∧
    env.hash (env.serAddr toA ++ env.serSym name ++ beBytes64 env.timestamp) ≠
      env.hash (env.serAddr toB ++ env.serSym name ++ beBytes64 env.timestamp) := by
  refine ⟨?_, ?_, ?_⟩
  · simp [mint_nft, mintId, mintPreimage, hA, hauth, hfreeA]
  · simp [mint_nft, mintId, mintPreimage, hA, hauth, hfreeB]
  · intro h
    have hcat := hinj h
    have hpre : env.serAddr toA = env.serAddr toB := by simpa using hcat
    exact hne (hserinj hpre)

theorem issuanceDeterminism_witness :
    (mint_nft (envAt 7) authAll sAdmin 5 "Name" "Desc" "Img").fst =
      .ok ((envAt 7).hash ((envAt 7).serAddr 5 ++ (envAt 7).serSym "Name" ++ beBytes64 (envAt 7).timestamp)) ∧
    (mint_nft (envAt 7) authAll sAdmin 6 "Name" "Desc2" "Img2").fst =
      .ok ((envAt 7).hash ((envAt 7).serAddr 6 ++ (envAt 7).serSym "Name" ++ beBytes64 (envAt 7).timestamp)) ∧
    (envAt 7).hash ((envAt 7).serAddr 5 ++ (envAt 7).serSym "Name" ++ beBytes64 (envAt 7).timestamp) ≠
      (envAt 7).hash ((envAt 7).serAddr 6 ++ (envAt 7).serSym "Name" ++ beBytes64 (envAt 7).timestamp) :=
  issuanceDeterminism (envAt 7) authAll sAdmin 1 5 6 "Name" "Desc" "Img" "Desc2" "Img2"
    rfl rfl rfl rfl (by decide) encodeHash_injective serAddrOne_injective

/-! ### Reachable states and the ownership-binding invariant (C6) -/

/-- States reachable by any sequence of contract calls, for a fixed hash
and serialization collaborator and arbitrary per-call timestamps and
callers. -/
inductive Reach (h : List Nat → TokenId) (sa : Address → List Nat)
    (ss : SymStr → List Nat) : State → Prop where
  | emptyR : Reach h sa ss emptyState
  | initR (s : State) (a : Address) :
      Reach h sa ss s → Reach h sa ss (initializeContract s a).snd
  | mintR (s : State) (ts : Nat) (auth : Address → Bool) (toAddr : Address)
      (name description image_url : SymStr) : Reach h sa ss s →
      Reach h sa ss (mint_nft ⟨h, sa, ss, ts⟩ auth s toAddr name description image_url).snd
  | revokeR (s : State) (ts : Nat) (auth : Address → Bool) (u : Address) :
      Reach h sa ss s → Reach h sa ss (revoke_nft ⟨h, sa, ss, ts⟩ auth s u).snd
  | reactR (s : State) (ts : Nat) (auth : Address → Bool) (u : Address) :
      Reach h sa ss s → Reach h sa ss (reactivate_nft ⟨h, sa, ss, ts⟩ auth s u).snd

/-- Forward and backward ownership tables agree. -/
def ownershipAgrees (s : State) : Prop :=
  (∀ u id, getEntry u s.ownerNft = some id → getEntry id s.nftOwner = some u) ∧
  (∀ id u, getEntry id s.nftOwner = some u → getEntry u s.ownerNft = some id)

/-- Every bound token id is the hash of a preimage tagged with its owner. -/
def idsAreHashes (h : List Nat → TokenId) (sa : Address → List Nat)
    (ss : SymStr → List Nat) (s : State) : Prop :=
  ∀ id u, getEntry id s.nftOwner = some u →
    ∃ name ts, id = h (sa u ++ ss name ++ beBytes64 ts)

theorem initializeContract_snd_frame (s : State) (a : Address) :
    (initializeContract s a).snd.ownerNft = s.ownerNft ∧
    (initializeContract s a).snd.nftOwner = s.nftOwner := by
  unfold initializeContract
  split <;> exact ⟨rfl, rfl⟩

theorem revoke_nft_snd_frame (env : CallEnv) (auth : Address → Bool)
    (s : State) (u : Address) :
    (revoke_nft env auth s u).snd.ownerNft = s.ownerNft ∧
    (revoke_nft env auth s u).snd.nftOwner = s.nftOwner := by
  unfold revoke_nft
  (repeat' split) <;> exact ⟨rfl, rfl⟩

theorem reactivate_nft_snd_frame (env : CallEnv) (auth : Address → Bool)
    (s : State) (u : Address) :
    (reactivate_nft env auth s u).snd.ownerNft = s.ownerNft ∧
    (reactivate_nft env auth s u).snd.nftOwner = s.nftOwner := by
  unfold reactivate_nft
  (repeat' split) <;> exact ⟨rfl, rfl⟩

theorem invTransfer (h : List Nat → TokenId) (sa : Address → List Nat)
    (ss : SymStr → List Nat) {s s2 : State}
    (e1 : s2.ownerNft = s.ownerNft) (e2 : s2.nftOwner = s.nftOwner) :
    ownershipAgrees s ∧ idsAreHashes h sa ss s →
    ownershipAgrees s2 ∧ idsAreHashes h sa ss s2 := by
  intro hi
  simp only [ownershipAgrees, idsAreHashes, e1, e2]
  exact hi

theorem agreement_insert {own : List (Address × TokenId)}
    {rev : List (TokenId × Address)}
    (hfwd : ∀ u id, getEntry u own = some id → getEntry id rev = some u)
    (hbwd : ∀ id u, getEntry id rev = some u → getEntry u own = some id)
    {toAddr : Address} {newId : TokenId}
    (hx : getEntry toAddr own = none)
    (hfresh : getEntry newId rev = none) :
    (∀ u id, getEntry u (setEntry toAddr newId own) = some id →
       getEntry id (setEntry newId toAddr rev) = some u) ∧
    (∀ id u, getEntry id (setEntry newId toAddr rev) = some u →
       getEntry u (setEntry toAddr newId own) = some id) := by
  constructor
  · intro u id hu
    by_cases hu2 : u = toAddr
    · subst hu2
      rw [getEntry_setEntry_self] at hu
      injection hu with h5
      subst h5
      exact getEntry_setEntry_self _ _ _
    · rw [getEntry_setEntry_ne _ _ (fun hh2 => hu2 hh2.symm)] at hu
      have hold := hfwd u id hu
      have hne : newId ≠ id := by
        intro he
        subst he
        rw [hfresh] at hold
        exact Option.noConfusion hold
      rw [getEntry_setEntry_ne _ _ hne]
      exact hold
  · intro id u hid
    by_cases hid2 : id = newId
    · subst hid2
      rw [getEntry_setEntry_self] at hid
      injection hid with h5
      subst h5
      exact getEntry_setEntry_self _ _ _
    · rw [getEntry_setEntry_ne _ _ (fun hh2 => hid2 hh2.symm)] at hid
      have hold := hbwd id u hid
      have hne : toAddr ≠ u := by
        intro he
        subst he
        rw [hx] at hold
        exact Option.noConfusion hold
      rw [getEntry_setEntry_ne _ _ hne]
      exact hold

theorem hashes_insert (h : List Nat → TokenId) (sa : Address → List Nat)
    (ss : SymStr → List Nat) {rev : List (TokenId × Address)}
    (hh : ∀ id u, getEntry id rev = some u →
      ∃ name ts, id = h (sa u ++ ss name ++ beBytes64 ts))
    {toAddr : Address} {name0 : SymStr} {ts0 : Nat} :
    ∀ id u, getEntry id
        (setEntry (h (sa toAddr ++ ss name0 ++ beBytes64 ts0)) toAddr rev) = some u →
      ∃ name ts, id = h (sa u ++ ss name ++ beBytes64 ts) := by
  intro id u hid
  by_cases he : id = h (sa toAddr ++ ss name0 ++ beBytes64 ts0)
  · subst he
    rw [getEntry_setEntry_self] at hid
    injection hid with h5
    subst h5
    exact ⟨name0, ts0, rfl⟩
  · rw [getEntry_setEntry_ne _ _ (fun hh2 => he hh2.symm)] at hid
    exact hh id u hid

theorem reach_ownership_inv (h : List Nat → TokenId) (sa : Address → List Nat)
    (ss : SymStr → List Nat) (hinj : Function.Injective h)
    (sainj : Function.Injective sa)
    (salen : ∀ x y : Address, (sa x).length = (sa y).length)
    {s : State} (hr : Reach h sa ss s) :
    ownershipAgrees s ∧ idsAreHashes h sa ss s := by
  induction hr with
  | emptyR =>
    refine ⟨⟨?_, ?_⟩, ?_⟩ <;> intro x y hxy <;> simp [emptyState, getEntry] at hxy
  | initR s a hprev ih =>
    exact invTransfer h sa ss (initializeContract_snd_frame s a).1
      (initializeContract_snd_frame s a).2 ih
  | revokeR s ts auth u hprev ih =>
    exact invTransfer h sa ss (revoke_nft_snd_frame ⟨h, sa, ss, ts⟩ auth s u).1
      (revoke_nft_snd_frame ⟨h, sa, ss, ts⟩ auth s u).2 ih
  | reactR s ts auth u hprev ih =>
    exact invTransfer h sa ss (reactivate_nft_snd_frame ⟨h, sa, ss, ts⟩ auth s u).1
      (reactivate_nft_snd_frame ⟨h, sa, ss, ts⟩ auth s u).2 ih
  | mintR s ts auth toAddr name description image_url hprev ih =>
    obtain ⟨⟨hfwd, hbwd⟩, hh⟩ := ih
    cases hA : s.admin with
    | none =>
      refine invTransfer h sa ss ?_ ?_ ⟨⟨hfwd, hbwd⟩, hh⟩ <;>
        simp [mint_nft, hA]
    | some a =>
      by_cases hb : auth a
      case neg =>
        refine invTransfer h sa ss ?_ ?_ ⟨⟨hfwd, hbwd⟩, hh⟩ <;>
          simp [mint_nft, hA, hb]
      case pos =>
        cases hx : getEntry toAddr s.ownerNft with
        | some id0 =>
          refine invTransfer h sa ss ?_ ?_ ⟨⟨hfwd, hbwd⟩, hh⟩ <;>
            simp [mint_nft, hA, hb, hx]
        | none =>
          have h1 : (mint_nft ⟨h, sa, ss, ts⟩ auth s toAddr name description image_url).snd.ownerNft =
              setEntry toAddr (h (sa toAddr ++ ss name ++ beBytes64 ts)) s.ownerNft := by
            simp [mint_nft, mintId, mintPreimage, hA, hb, hx]
          have h2 : (mint_nft ⟨h, sa, ss, ts⟩ auth s toAddr name description image_url).snd.nftOwner =
              setEntry (h (sa toAddr ++ ss name ++ beBytes64 ts)) toAddr s.nftOwner := by
            simp [mint_nft, mintId, mintPreimage, hA, hb, hx]
          have hfresh : getEntry (h (sa toAddr ++ ss name ++ beBytes64 ts)) s.nftOwner = none := by
            cases how : getEntry (h (sa toAddr ++ ss name ++ beBytes64 ts)) s.nftOwner with
            | none => rfl
            | some u0 =>
              obtain ⟨n0, t0, hid⟩ := hh _ u0 how
              have hl := hinj hid.symm
              have hsa : sa u0 = sa toAddr :=
                (List.append_inj (by simpa [List.append_assoc] using hl)
                  (salen u0 toAddr)).1
              have hu0 : u0 = toAddr := sainj hsa
              subst hu0
              have hcontr := hbwd _ u0 how
              rw [hx] at hcontr
              exact Option.noConfusion hcontr
          have hag := agreement_insert hfwd hbwd hx hfresh
          refine ⟨⟨?_, ?_⟩, ?_⟩
          · intro u id hu
            rw [h2]
            rw [h1] at hu
            exact hag.1 u id hu
          · intro id u hid
            rw [h1]
            rw [h2] at hid
            exact hag.2 id u hid
          · intro id u hid
            rw [h2] at hid
            exact hashes_insert h sa ss hh id u hid

/-- A concrete reachable state: deploy, set admin 1, then mint a
credential for identity 5 at timestamp 1. -/
def sMinted : State :=
  (mint_nft ⟨encodeHash, serAddrOne, serSymCodes, 1⟩ authAll
    (initializeContract emptyState 1).snd 5 "Name" "Desc" "Img").snd

/-- C6: over collision-free hash and serialization collaborators, every
state reachable by contract calls satisfies the binding invariant: the
forward identity-to-token table and the backward token-to-owner table
agree in both directions, and at most one token id is bound per
identity. -/
theorem ownershipBindingInvariant (h : List Nat → TokenId)
    (sa : Address → List Nat) (ss : SymStr → List Nat)
    (hinj : Function.Injective h) (sainj : Function.Injective sa)
    (salen : ∀ x y : Address, (sa x).length = (sa y).length)
    (s : State) (hr : Reach h sa ss s) :
    (∀ u id, getEntry u s.ownerNft = some id → getEntry id s.nftOwner = some u) ∧
    (∀ id u, getEntry id s.nftOwner = some u → getEntry u s.ownerNft = some id) ∧
    (∀ u id1 id2, getEntry u s.ownerNft = some id1 →
      getEntry u s.ownerNft = some id2 → id1 = id2) := by
  have hmain := reach_ownership_inv h sa ss hinj sainj salen hr
  refine ⟨hmain.1.1, hmain.1.2, ?_⟩
  intro u id1 id2 ha1 ha2
  rw [ha1] at ha2
  injection ha2

theorem ownershipBindingInvariant_witness :
    (∀ u id, getEntry u sMinted.ownerNft = some id →
      getEntry id sMinted.nftOwner = some u) ∧
    (∀ id u, getEntry id sMinted.nftOwner = some u →
      getEntry u sMinted.ownerNft = some id) ∧
    (∀ u id1 id2, getEntry u sMinted.ownerNft = some id1 →
      getEntry u sMinted.ownerNft = some id2 → id1 = id2) :=
  ownershipBindingInvariant encodeHash serAddrOne serSymCodes
    encodeHash_injective serAddrOne_injective (fun x y => rfl) sMinted
    (Reach.mintR (initializeContract emptyState 1).snd 1 authAll 5 "Name" "Desc" "Img"
      (Reach.initR emptyState 1 Reach.emptyR))
